import Mathlib

/-!
# Verification of the gdal2mbtiles tiling engine

A shallow embedding of the tiling engine of `gdal2mbtiles.py` (the
coordinate kernel `GlobalMercator`, the query-to-tile mapper `geo_query`,
the per-tile work partitioning, the tile/metadata insert sites, the
overview-tile composition and the archive finalisation), together with
theorems settling the specified properties.

Modelling conventions:
* Python machine floats are modelled by exact rational arithmetic over `ℚ`;
  the constant `math.pi` is the IEEE-754 double closest to π,
  `884279719003555 / 2^48`.
* Python `int(x)` (truncation towards zero) is `pyTrunc`.
* Python `%` on integers agrees with `Int.emod` for positive divisors,
  the only case exercised by the code.
* Fallible code (division by zero, subscripting `None`) is modelled with
  `Option` / `Except`.
-/

namespace Gdal2Mbtiles

/-- Python `int(·)` applied to a (rational-valued) float: truncation
towards zero. -/
def pyTrunc (q : ℚ) : ℤ := if q < 0 then ⌈q⌉ else ⌊q⌋

/-! ## GlobalMercator coordinate kernel (gdal2mbtiles.py lines 232-330) -/

/-- Constant `MAXZOOMLEVEL = 32` (line 131). -/
def MAXZOOMLEVEL : ℕ := 32

/-- The IEEE-754 double value of `math.pi`. -/
def pyPi : ℚ := 884279719003555 / 2 ^ 48

/-- Constant `self.tileSize = 256`. -/
def tileSize : ℕ := 256

/-- Constant `self.initialResolution = 2 * math.pi * 6378137 / self.tileSize`
(line 235). -/
def initialResolution : ℚ := 2 * pyPi * 6378137 / 256

/-- Constant `self.originShift = 2 * math.pi * 6378137 / 2.0` (line 237). -/
def originShift : ℚ := 2 * pyPi * 6378137 / 2

/-- Function `Resolution(zoom) = initialResolution / 2**zoom` (lines 310-314). -/
def Resolution (zoom : ℕ) : ℚ := initialResolution / 2 ^ zoom

/-- Function `PixelsToMeters(px, py, zoom)` (lines 259-265). -/
def PixelsToMeters (px py : ℚ) (zoom : ℕ) : ℚ × ℚ :=
  (px * Resolution zoom - originShift, py * Resolution zoom - originShift)

/-- Function `MetersToPixels(mx, my, zoom)` (lines 267-273). -/
def MetersToPixels (mx my : ℚ) (zoom : ℕ) : ℚ × ℚ :=
  ((mx + originShift) / Resolution zoom, (my + originShift) / Resolution zoom)

/-- Function `PixelsToTile(px, py) = (ceil(px/256) - 1, ceil(py/256) - 1)`
(lines 275-280). -/
def PixelsToTile (px py : ℚ) : ℤ × ℤ :=
  (⌈px / 256⌉ - 1, ⌈py / 256⌉ - 1)

/-- Function `TileBounds(tx, ty, zoom)` as `(minx, miny, maxx, maxy)`
(lines 294-299). -/
def TileBounds (tx ty : ℤ) (zoom : ℕ) : ℚ × ℚ × ℚ × ℚ :=
  let mins := PixelsToMeters ((tx : ℚ) * 256) ((ty : ℚ) * 256) zoom
  let maxs := PixelsToMeters (((tx : ℚ) + 1) * 256) (((ty : ℚ) + 1) * 256) zoom
  (mins.1, mins.2, maxs.1, maxs.2)

/-- Function `ZoomForPixelSize(pixelSize)` (lines 316-324): the loop scans
`i = 0, 1, …, MAXZOOMLEVEL-1` and returns `i-1` (clamped to `0`) for the
first `i` with `pixelSize > Resolution(i)`; if no such `i` exists the
Python function falls off the end and returns `None`. -/
def ZoomForPixelSize (pixelSize : ℚ) : Option ℕ :=
  ((List.range MAXZOOMLEVEL).find? (fun i => decide (Resolution i < pixelSize))).map
    (fun i => i - 1)

/-- Default `tmaxz` when `-z` is not given: `ZoomForPixelSize(out_gt[1])`
(open_input, lines 1046-1048). -/
def defaultTmaxz (srcPixelSize : ℚ) : Option ℕ := ZoomForPixelSize srcPixelSize

/-! ### Elementary facts about `pyTrunc` and `Resolution` -/

theorem pyTrunc_intCast (n : ℤ) : pyTrunc (n : ℚ) = n := by
  unfold pyTrunc
  split <;> simp

theorem pyTrunc_of_nonneg {q : ℚ} (h : 0 ≤ q) : pyTrunc q = ⌊q⌋ :=
  if_neg (not_lt.mpr h)

theorem pyTrunc_nonneg {q : ℚ} (h : 0 ≤ q) : 0 ≤ pyTrunc q := by
  rw [pyTrunc_of_nonneg h]
  exact Int.floor_nonneg.mpr h

theorem pyTrunc_le {q : ℚ} (h : 0 ≤ q) : (pyTrunc q : ℚ) ≤ q := by
  rw [pyTrunc_of_nonneg h]
  exact Int.floor_le q

theorem sub_one_lt_pyTrunc (q : ℚ) : q - 1 < (pyTrunc q : ℚ) := by
  unfold pyTrunc
  split
  · have := Int.le_ceil q
    linarith
  · exact Int.sub_one_lt_floor q

theorem le_pyTrunc_of_neg {q : ℚ} (h : q < 0) : q ≤ (pyTrunc q : ℚ) := by
  rw [pyTrunc, if_pos h]
  exact Int.le_ceil q

theorem le_neg_one_of_pyTrunc_neg {q : ℚ} (h : pyTrunc q < 0) : q ≤ -1 := by
  by_cases hq : q < 0
  · rw [pyTrunc, if_pos hq] at h
    have : ⌈q⌉ ≤ (-1 : ℤ) := by omega
    have := Int.ceil_le.mp this
    simpa using this
  · exact absurd (pyTrunc_nonneg (not_lt.mp hq)) (by omega)

theorem pyPi_pos : 0 < pyPi := by norm_num [pyPi]

theorem initialResolution_pos : 0 < initialResolution := by
  have := pyPi_pos
  unfold initialResolution
  positivity

theorem resolution_pos (z : ℕ) : 0 < Resolution z := by
  unfold Resolution
  have := initialResolution_pos
  positivity

theorem resolution_ne_zero (z : ℕ) : Resolution z ≠ 0 :=
  ne_of_gt (resolution_pos z)

theorem resolution_strict_anti {z w : ℕ} (h : z < w) : Resolution w < Resolution z := by
  unfold Resolution
  rw [div_lt_div_iff_of_pos_left initialResolution_pos (by positivity) (by positivity)]
  exact pow_lt_pow_right₀ one_lt_two h

theorem resolution_anti {z w : ℕ} (h : z ≤ w) : Resolution w ≤ Resolution z := by
  rcases eq_or_lt_of_le h with rfl | h
  · exact le_refl _
  · exact le_of_lt (resolution_strict_anti h)

/-! ## C4: round-trip of the tile-corner through meters and pixels -/

/-- Composition `PixelsToTile(MetersToPixels(TileBounds(tx,ty,z).min, z))`: the
round trip of the claim, at the minimum corner of the tile bounds. -/
def roundTripMinCorner (tx ty : ℤ) (z : ℕ) : ℤ × ℤ :=
  let b := TileBounds tx ty z
  let p := MetersToPixels b.1 b.2.1 z
  PixelsToTile p.1 p.2

/-- The same round trip at the maximum corner of the tile bounds. -/
def roundTripMaxCorner (tx ty : ℤ) (z : ℕ) : ℤ × ℤ :=
  let b := TileBounds tx ty z
  let p := MetersToPixels b.2.2.1 b.2.2.2 z
  PixelsToTile p.1 p.2

theorem metersToPixels_pixelsToMeters (px py : ℚ) (z : ℕ) :
    MetersToPixels (PixelsToMeters px py z).1 (PixelsToMeters px py z).2 z = (px, py) := by
  unfold MetersToPixels PixelsToMeters
  have h := resolution_ne_zero z
  field_simp

/-- C4, corrected: at the concrete in-range tile `(z, tx, ty) = (0, 0, 0)`
the min-corner round trip returns `(-1, -1)`, not `(0, 0)`: the minimum
corner lies exactly on the tile boundary and `PixelsToTile` (a ceiling
minus one) assigns boundary points to the previous tile. -/
theorem roundTripMinCorner_counterexample :
    roundTripMinCorner 0 0 0 = (-1, -1) ∧ roundTripMinCorner 0 0 0 ≠ (0, 0) := by
  have h : roundTripMinCorner 0 0 0 = (-1, -1) := by
    simp only [roundTripMinCorner, TileBounds, metersToPixels_pixelsToMeters, PixelsToTile]
    norm_num
  exact ⟨h, by rw [h]; decide⟩

/-- C4, amended: for every tile index, the round trip through
`MetersToPixels` and `PixelsToTile` returns `(tx - 1, ty - 1)` at the
minimum corner of `TileBounds`, and returns `(tx, ty)` exactly at the
maximum corner. -/
theorem roundTrip_tileBounds (tx ty : ℤ) (z : ℕ) :
    roundTripMinCorner tx ty z = (tx - 1, ty - 1) ∧
      roundTripMaxCorner tx ty z = (tx, ty) := by
  constructor
  · simp only [roundTripMinCorner, TileBounds, metersToPixels_pixelsToMeters, PixelsToTile]
    have hx : ((tx : ℚ) * 256) / 256 = (tx : ℚ) := by ring
    have hy : ((ty : ℚ) * 256) / 256 = (ty : ℚ) := by ring
    rw [hx, hy, Int.ceil_intCast, Int.ceil_intCast]
  · simp only [roundTripMaxCorner, TileBounds, metersToPixels_pixelsToMeters, PixelsToTile]
    have hx : (((tx : ℚ) + 1) * 256) / 256 = ((tx + 1 : ℤ) : ℚ) := by push_cast; ring
    have hy : (((ty : ℚ) + 1) * 256) / 256 = ((ty + 1 : ℤ) : ℚ) := by push_cast; ring
    rw [hx, hy, Int.ceil_intCast, Int.ceil_intCast]
    simp


/-! ## C5: `ZoomForPixelSize` and the default `tmaxz` -/

theorem find?_range_eq_some {p : ℕ → Bool} {n i : ℕ} (hi : i < n) (hp : p i = true)
    (hmin : ∀ j, j < i → p j = false) : (List.range n).find? p = some i := by
  induction n generalizing p i with
  | zero => omega
  | succ n ih =>
    rw [List.range_succ_eq_map, List.find?_cons]
    cases i with
    | zero => simp [hp]
    | succ i =>
      have h0 : p 0 = false := hmin 0 (by omega)
      rw [h0]
      rw [List.find?_map]
      have hrec : (List.range n).find? (p ∘ Nat.succ) = some i :=
        ih (by omega) hp (fun j hj => hmin (j + 1) (by omega))
      simp [hrec]

theorem zoomForPixelSize_eq_none {p : ℚ} (h : ∀ j, j < MAXZOOMLEVEL → ¬ Resolution j < p) :
    ZoomForPixelSize p = none := by
  unfold ZoomForPixelSize
  rw [List.find?_eq_none.mpr]
  · rfl
  · intro j hj
    simp only [List.mem_range] at hj
    simpa using h j hj

theorem zoomForPixelSize_eq_some {p : ℚ} {i : ℕ} (hi : i < MAXZOOMLEVEL)
    (hp : Resolution i < p) (hmin : ∀ j, j < i → ¬ Resolution j < p) :
    ZoomForPixelSize p = some (i - 1) := by
  unfold ZoomForPixelSize
  rw [find?_range_eq_some hi (by simpa using hp)
    (fun j hj => by simpa using hmin j hj)]
  rfl

/-- C5, counterexample: for the pixel size `1/2^20`, which is smaller than
`Resolution 31`, the Python loop in `ZoomForPixelSize` falls off its end
and the function returns `None` — not the largest zoom `31` with
`Resolution 31 ≥ p` demanded by the claim. -/
theorem defaultTmaxz_counterexample :
    defaultTmaxz (1 / 2 ^ 20) = none ∧ (1 / 2 ^ 20 : ℚ) ≤ Resolution 31 := by
  have h31 : (1 / 2 ^ 20 : ℚ) ≤ Resolution 31 := by
    norm_num [Resolution, initialResolution, pyPi]
  refine ⟨zoomForPixelSize_eq_none (fun j hj => not_lt.mpr ?_), h31⟩
  calc (1 / 2 ^ 20 : ℚ) ≤ Resolution 31 := h31
    _ ≤ Resolution j := resolution_anti (by simp only [MAXZOOMLEVEL] at hj; omega)

/-- C5, amended: whenever `Resolution 31 < p`, `ZoomForPixelSize p` (and
hence the default `tmaxz`) returns `some z` where `z` is the largest zoom
in `[0, 31]` with `Resolution z ≥ p` if one exists, and `0` (clamped,
never negative) when `p > Resolution 0`; in the former case the default
`tmaxz` satisfies `Resolution tmaxz ≥ p > Resolution (tmaxz + 1)`.  For
`p ≤ Resolution 31` the function instead returns `none` (see the
counterexample). -/
theorem defaultTmaxz_spec (p : ℚ) (h31 : Resolution 31 < p) :
    ∃ z, defaultTmaxz p = some z ∧ z ≤ 31 ∧
      (∀ w, w < MAXZOOMLEVEL → p ≤ Resolution w → w ≤ z) ∧
      (p ≤ Resolution 0 → p ≤ Resolution z ∧ Resolution (z + 1) < p) ∧
      (Resolution 0 < p → z = 0) := by
  have hex : ∃ i, Resolution i < p := ⟨31, h31⟩
  classical
  have hp₀ : Resolution (Nat.find hex) < p := Nat.find_spec hex
  have hmin : ∀ j, j < Nat.find hex → ¬ Resolution j < p := fun j hj => Nat.find_min hex hj
  have hle : Nat.find hex ≤ 31 := Nat.find_min' hex h31
  have heq : ZoomForPixelSize p = some (Nat.find hex - 1) :=
    zoomForPixelSize_eq_some (by simp only [MAXZOOMLEVEL]; omega) hp₀ hmin
  refine ⟨Nat.find hex - 1, heq, by omega, ?_, ?_, ?_⟩
  · intro w _ hw
    by_contra hcon
    have h1 : Nat.find hex ≤ w := by omega
    have h2 : Resolution w ≤ Resolution (Nat.find hex) := resolution_anti h1
    exact absurd (lt_of_le_of_lt hw (lt_of_le_of_lt h2 hp₀)) (lt_irrefl p)
  · intro h0
    have hi₀ : Nat.find hex ≠ 0 := by
      intro hzero
      rw [hzero] at hp₀
      exact absurd (lt_of_le_of_lt h0 hp₀) (lt_irrefl p)
    have hres : ¬ Resolution (Nat.find hex - 1) < p := hmin (Nat.find hex - 1) (by omega)
    have hsucc : Nat.find hex - 1 + 1 = Nat.find hex := by omega
    exact ⟨not_lt.mp hres, by rw [hsucc]; exact hp₀⟩
  · intro h0
    have hzero : Nat.find hex = 0 := by
      by_contra hne
      exact hmin 0 (by omega) h0
    omega

/-- Witness for `defaultTmaxz_spec` at the concrete pixel size `10`. -/
theorem defaultTmaxz_spec_witness :
    ∃ z, defaultTmaxz 10 = some z ∧ z ≤ 31 ∧
      (∀ w, w < MAXZOOMLEVEL → (10 : ℚ) ≤ Resolution w → w ≤ z) ∧
      ((10 : ℚ) ≤ Resolution 0 → (10 : ℚ) ≤ Resolution z ∧ Resolution (z + 1) < 10) ∧
      (Resolution 0 < 10 → z = 0) :=
  defaultTmaxz_spec 10 (by norm_num [Resolution, initialResolution, pyPi])

/-! ## C7: overview-phase quadrant selection (lines 1499-1508)

Python `%` on integers agrees with `Int.emod` for the positive divisors
`2*ty`, `2*tx` used here. -/

/-- Y offset of a child tile `y` inside the parent canvas for parent row
`ty`: `0` if `(ty == 0 and y == 1) or (ty != 0 and y % (2*ty) != 0)`,
else `tilesize` (lines 1499-1502). -/
def tileposy (ty y : ℤ) : ℤ :=
  if (ty = 0 ∧ y = 1) ∨ (ty ≠ 0 ∧ y % (2 * ty) ≠ 0) then 0 else 256

/-- X offset of a child tile `x` inside the parent canvas for parent
column `tx`: `x % (2*tx) * tilesize` if `tx` is truthy, `tilesize` if
`tx == 0 and x == 1`, else `0` (lines 1503-1508). -/
def tileposx (tx x : ℤ) : ℤ :=
  if tx ≠ 0 then x % (2 * tx) * 256
  else if tx = 0 ∧ x = 1 then 256
  else 0

/-- C7, confirmed: for every parent `(tx, ty)` with `tx, ty ≥ 0` and every
child `(cx, cy)` of its 2×2 quadrant, the code's quadrant-selection
conditions agree with the simpler rule `Y offset 0 iff cy - 2*ty = 1` and
`X offset 256 iff cx - 2*tx = 1`. -/
theorem quadrant_selection_equiv (tx ty cx cy : ℤ) (hx : 0 ≤ tx) (hy : 0 ≤ ty)
    (hcx : cx = 2 * tx ∨ cx = 2 * tx + 1) (hcy : cy = 2 * ty ∨ cy = 2 * ty + 1) :
    tileposy ty cy = (if cy - 2 * ty = 1 then 0 else 256) ∧
      tileposx tx cx = (if cx - 2 * tx = 1 then 256 else 0) := by
  constructor
  · rcases eq_or_lt_of_le hy with rfl | hpos
    · rcases hcy with rfl | rfl <;> simp [tileposy]
    · rcases hcy with rfl | rfl
      · have hm : 2 * ty % (2 * ty) = 0 := Int.emod_self
        unfold tileposy
        rw [hm]
        rw [if_neg (by simp [hpos.ne']), if_neg (by omega)]
      · have hstep : 2 * ty + 1 = 1 + 2 * ty * 1 := by ring
        have hm : (2 * ty + 1) % (2 * ty) = 1 := by
          rw [hstep, Int.add_mul_emod_self_left]
          exact Int.emod_eq_of_lt (by omega) (by omega)
        unfold tileposy
        rw [hm]
        rw [if_pos (Or.inr ⟨hpos.ne', by norm_num⟩), if_pos (by omega)]
  · rcases eq_or_lt_of_le hx with rfl | hpos
    · rcases hcx with rfl | rfl <;> simp [tileposx]
    · rcases hcx with rfl | rfl
      · have hm : 2 * tx % (2 * tx) = 0 := Int.emod_self
        unfold tileposx
        rw [if_pos hpos.ne', hm, if_neg (by omega)]
        norm_num
      · have hstep : 2 * tx + 1 = 1 + 2 * tx * 1 := by ring
        have hm : (2 * tx + 1) % (2 * tx) = 1 := by
          rw [hstep, Int.add_mul_emod_self_left]
          exact Int.emod_eq_of_lt (by omega) (by omega)
        unfold tileposx
        rw [if_pos hpos.ne', hm, if_pos (by omega)]
        norm_num

/-- Witness for `quadrant_selection_equiv` at the parent `(1, 1)` and the
child `(3, 2)`. -/
theorem quadrant_selection_equiv_witness :
    tileposy 1 2 = (if (2 : ℤ) - 2 * 1 = 1 then 0 else 256) ∧
      tileposx 1 3 = (if (3 : ℤ) - 2 * 1 = 1 then 256 else 0) :=
  quadrant_selection_equiv 1 1 3 2 (by decide) (by decide)
    (Or.inr (by decide)) (Or.inl (by decide))

/-! ## Archive rows and the tile insert sites (C1, C10) -/

/-- A tile blob (PNG/JPEG byte string), abstracted to its byte list. -/
abbrev Blob := List ℕ

/-- The `-o`, `--output` row-indexing convention (`output_cache` option,
default `xyz`). -/
inductive OutputCache where
  | tms
  | xyz
  deriving DecidableEq

/-- A row of the `tiles` table. -/
structure TileRow where
  zoom_level : ℕ
  tile_column : ℤ
  tile_row : ℤ
  tile_data : Blob
  deriving DecidableEq

/-- Value `ty_final` as computed in both tile phases (lines 1291-1294 and
1450-1453): the XYZ flip `(2**tz - 1) - ty`, or `ty` for TMS. -/
def ty_final (oc : OutputCache) (tz : ℕ) (ty : ℤ) : ℤ :=
  match oc with
  | OutputCache.xyz => (2 ^ tz - 1) - ty
  | OutputCache.tms => ty

/-- The row inserted into `tiles` by the base phase (lines 1406-1409):
`(tz, tx, ty, blob)` — the raw TMS `ty`, not `ty_final`.  The
`output_cache` option is in scope in the source but unused by this
INSERT; it only names the tile file. -/
def base_tile_insert (_oc : OutputCache) (tz : ℕ) (tx ty : ℤ) (blob : Blob) : TileRow :=
  { zoom_level := tz, tile_column := tx, tile_row := ty, tile_data := blob }

/-- The row inserted into `tiles` by the overview phase (lines 1522-1525):
also `(tz, tx, ty, blob)` with the raw TMS `ty`. -/
def overview_tile_insert (_oc : OutputCache) (tz : ℕ) (tx ty : ℤ) (blob : Blob) : TileRow :=
  { zoom_level := tz, tile_column := tx, tile_row := ty, tile_data := blob }

/-- The `-r`, `--resampling` option. -/
inductive Resampling where
  | average
  | near
  | bilinear
  | cubic
  | cubicspline
  | lanczos
  | antialias
  deriving DecidableEq

/-- Value of `self.querysize` after `__init__` (lines 550, 638-644): `tilesize` for
`near`, `2*tilesize` for `bilinear`, otherwise the default `4*tilesize`. -/
def querysizeOf (r : Resampling) : ℕ :=
  match r with
  | Resampling.near => 256
  | Resampling.bilinear => 512
  | _ => 1024

/-- The effect of `scale_query_to_tile` (lines 1584-1624): `average` runs
`gdal.RegenerateOverview` into the in-memory tile, `antialias` writes the
(possibly composited) image to `tilefilename` on the filesystem, every
other algorithm runs `gdal.ReprojectImage` into the in-memory tile. -/
inductive ScaleEffect where
  | regenerate
  | reproject
  | fileWrite (path : String) (compositedOverExisting : Bool)
  deriving DecidableEq

/-- Function `scale_query_to_tile(dsquery, dstile, tilefilename)` modelled by the
effect it has (lines 1591-1624); `fileExists` is
`os.path.exists(tilefilename)` (line 1611). -/
def scale_query_to_tile (r : Resampling) (tilefilename : String) (fileExists : Bool) :
    ScaleEffect :=
  match r with
  | Resampling.average => ScaleEffect.regenerate
  | Resampling.antialias => ScaleEffect.fileWrite tilefilename fileExists
  | _ => ScaleEffect.reproject

/-- The externally visible writes of one tile computation. -/
structure TileEffects where
  dbInserts : List TileRow
  fileWrites : List String
  deriving DecidableEq

/-- The local `querysize` of one base-phase tile computation: initialised
from `self.querysize` (line 1266) and, for the raster profile at
`tz >= self.nativezoom`, reassigned to `self.tilesize` (lines 1342-1343);
`rasterNative` stands for that condition
(`profile == 'raster' and tz >= nativezoom`, the default base zoom of
raster runs since `tmaxz = nativezoom`, line 1103). -/
def base_querysize (r : Resampling) (rasterNative : Bool) : ℕ :=
  if rasterNative then 256 else querysizeOf r

/-- The write effects of the tail of one base-phase tile computation
(lines 1378-1418), parametrised by the local `querysize` in scope at
line 1378: `scale_query_to_tile` runs only when
`self.tilesize != querysize` (line 1378), and the INSERT into `tiles`
runs only when `resampling != 'antialias'` (lines 1400-1409). -/
def base_tile_write (r : Resampling) (oc : OutputCache) (tz : ℕ) (tx ty : ℤ)
    (blob : Blob) (tilefilename : String) (fileExists : Bool) (querysize : ℕ) :
    TileEffects :=
  { dbInserts :=
      if r ≠ Resampling.antialias then [base_tile_insert oc tz tx ty blob] else []
    fileWrites :=
      if 256 = querysize then []
      else
        match scale_query_to_tile r tilefilename fileExists with
        | ScaleEffect.fileWrite p _ => [p]
        | _ => [] }

/-- The write effects of the tail of one overview-phase tile computation
(lines 1513-1525): `scale_query_to_tile` always runs (line 1513), and the
INSERT into `tiles` runs only when `resampling != 'antialias'`
(lines 1516-1525). -/
def overview_tile_write (r : Resampling) (oc : OutputCache) (tz : ℕ) (tx ty : ℤ)
    (blob : Blob) (tilefilename : String) (fileExists : Bool) : TileEffects :=
  { dbInserts :=
      if r ≠ Resampling.antialias then [overview_tile_insert oc tz tx ty blob] else []
    fileWrites :=
      match scale_query_to_tile r tilefilename fileExists with
      | ScaleEffect.fileWrite p _ => [p]
      | _ => [] }

/-- C1, counterexample: with the `xyz` convention at zoom `1`, TMS row
`ty = 0`, the row stored in `tiles` has `tile_row = 0`, while the claim
demands `(2^1 - 1) - 0 = 1` (`ty_final`, which the INSERT ignores). -/
theorem tile_row_counterexample :
    (base_tile_insert OutputCache.xyz 1 0 0 []).tile_row = 0 ∧
      ty_final OutputCache.xyz 1 0 = 1 ∧
      (base_tile_insert OutputCache.xyz 1 0 0 []).tile_row ≠ ty_final OutputCache.xyz 1 0 := by
  decide

/-- C1, amended: in both phases and for both conventions the stored
`tile_row` is the raw TMS `ty`; the XYZ flip `(2^z - 1) - ty` is computed
as `ty_final` but used only for the tile filename. -/
theorem tile_row_stored_tms (r : Resampling) (hr : r ≠ Resampling.antialias)
    (oc : OutputCache) (tz : ℕ) (tx ty : ℤ) (b : Blob) (fname : String) (ex : Bool)
    (qs : ℕ) :
    (base_tile_write r oc tz tx ty b fname ex qs).dbInserts =
        [{ zoom_level := tz, tile_column := tx, tile_row := ty, tile_data := b }] ∧
      (overview_tile_write r oc tz tx ty b fname ex).dbInserts =
        [{ zoom_level := tz, tile_column := tx, tile_row := ty, tile_data := b }] ∧
      ty_final OutputCache.xyz tz ty = 2 ^ tz - 1 - ty ∧
      ty_final OutputCache.tms tz ty = ty := by
  refine ⟨?_, ?_, rfl, rfl⟩
  · simp [base_tile_write, base_tile_insert, hr]
  · simp [overview_tile_write, overview_tile_insert, hr]

/-- Witness for `tile_row_stored_tms` with `average` resampling, `xyz`
convention, zoom 1, tile `(0, 0)`, the default querysize 1024. -/
theorem tile_row_stored_tms_witness :
    (base_tile_write Resampling.average OutputCache.xyz 1 0 0 [] "f" false 1024).dbInserts =
        [{ zoom_level := 1, tile_column := 0, tile_row := 0, tile_data := [] }] ∧
      (overview_tile_write Resampling.average OutputCache.xyz 1 0 0 [] "f" false).dbInserts =
        [{ zoom_level := 1, tile_column := 0, tile_row := 0, tile_data := [] }] ∧
      ty_final OutputCache.xyz 1 0 = 2 ^ 1 - 1 - 0 ∧
      ty_final OutputCache.tms 1 0 = 0 :=
  tile_row_stored_tms Resampling.average (by decide) OutputCache.xyz 1 0 0 [] "f" false 1024

/-- C10, confirmed: with `antialias` resampling neither phase inserts a
row into `tiles`, for every local `querysize` (so in particular for both
sides of the raster-profile reassignment of line 1343); the antialias
branch of `scale_query_to_tile` writes the composited image to the
tile's filesystem path, and the base phase performs that file write
exactly when its local `querysize` differs from the tile size — for the
mercator/geodetic profiles (querysize 1024) it does, while for the
raster profile at `tz >= nativezoom` (querysize reassigned to 256,
line 1343) `scale_query_to_tile` is never called and the tile
computation writes nothing at all. -/
theorem antialias_no_db_insert (r : Resampling) (hr : r = Resampling.antialias)
    (oc : OutputCache) (tz : ℕ) (tx ty : ℤ) (b : Blob) (fname : String) (ex : Bool)
    (qs : ℕ) (rasterNative : Bool) :
    (base_tile_write r oc tz tx ty b fname ex qs).dbInserts = [] ∧
      (overview_tile_write r oc tz tx ty b fname ex).dbInserts = [] ∧
      scale_query_to_tile r fname ex = ScaleEffect.fileWrite fname ex ∧
      (base_tile_write r oc tz tx ty b fname ex (base_querysize r rasterNative)).fileWrites =
        (if rasterNative then [] else [fname]) ∧
      (overview_tile_write r oc tz tx ty b fname ex).fileWrites = [fname] := by
  subst hr
  refine ⟨?_, ?_, rfl, ?_, rfl⟩
  · simp [base_tile_write]
  · simp [overview_tile_write]
  · cases rasterNative <;>
      simp [base_tile_write, base_querysize, querysizeOf, scale_query_to_tile]

/-- Witness for `antialias_no_db_insert` at a concrete tile, with the
raster-native querysize 256 for the insert conjunct and a mercator-style
run for the file-write conjunct. -/
theorem antialias_no_db_insert_witness :
    (base_tile_write Resampling.antialias OutputCache.xyz 2 1 1 [] "t.png" false 256).dbInserts = [] ∧
      (overview_tile_write Resampling.antialias OutputCache.xyz 2 1 1 [] "t.png" false).dbInserts = [] ∧
      scale_query_to_tile Resampling.antialias "t.png" false =
        ScaleEffect.fileWrite "t.png" false ∧
      (base_tile_write Resampling.antialias OutputCache.xyz 2 1 1 [] "t.png" false
        (base_querysize Resampling.antialias false)).fileWrites =
        (if false then [] else ["t.png"]) ∧
      (overview_tile_write Resampling.antialias OutputCache.xyz 2 1 1 [] "t.png" false).fileWrites = ["t.png"] :=
  antialias_no_db_insert Resampling.antialias rfl OutputCache.xyz 2 1 1 [] "t.png" false 256 false

/-! ## C6: metadata rows (generate_metadatajson lines 2299-2312,
generate_metadata lines 1145-1189, worker_metadata lines 2677-2686) -/

/-- The `-p`, `--profile` option. -/
inductive Profile where
  | mercator
  | geodetic
  | raster
  deriving DecidableEq

/-- The dict built by `generate_metadatajson` (lines 2299-2311), in
insertion order; `s w n e` stand for the rendered `str(...)` of the
clipped bounds and integer values are rendered decimally. -/
def generate_metadatajson (title copyright tileext : String) (tminz tmaxz : ℕ)
    (s w n e : String) : List (String × String) :=
  [("name", title),
   ("description", title),
   ("version", "1.0.0"),
   ("attribution", copyright),
   ("type", "overlay"),
   ("format", tileext),
   ("minzoom", toString tminz),
   ("maxzoom", toString tmaxz),
   ("bounds", s ++ " " ++ w ++ " " ++ n ++ " " ++ e),
   ("scale", "1"),
   ("profile", "mercator")]

/-- The metadata rows inserted by `generate_metadata(cur)`: the INSERT loop
(lines 1188-1189) runs only inside the `profile == 'mercator'` branch
(line 1145), only when `webviewer` is `all` or `metadata` (line 1182), and
only when not resuming or `metadata.json` does not exist (line 1183). -/
def generate_metadata_inserts (profile : Profile) (webviewer : String)
    (resume mdJsonExists : Bool) (md : List (String × String)) : List (String × String) :=
  if profile = Profile.mercator ∧ (webviewer = "all" ∨ webviewer = "metadata") ∧
      (resume = false ∨ mdJsonExists = false) then md else []

/-- The metadata rows inserted by the `worker_metadata` process
(lines 2677-2686): `mbtiles_setup` and `generate_metadata` run only when
not resuming. -/
def worker_metadata_inserts (profile : Profile) (webviewer : String)
    (resume mdJsonExists : Bool) (md : List (String × String)) : List (String × String) :=
  if resume = false then generate_metadata_inserts profile webviewer resume mdJsonExists md
  else []

/-- One externally visible archive write of a run. -/
inductive RunEvent where
  | meta (kv : String × String)
  | tile (row : TileRow)
  deriving DecidableEq

/-- The order of archive writes in `main` (lines 2729-2762): the
`worker_metadata` process is started and joined before any base-tile
worker starts, and the overview phases follow the base phase. -/
def runTrace (metaRows : List (String × String)) (tileRows : List TileRow) : List RunEvent :=
  metaRows.map RunEvent.meta ++ tileRows.map RunEvent.tile

theorem runTrace_meta_before_tile (metaRows : List (String × String))
    (tileRows : List TileRow) (i j : ℕ) (kv : String × String) (row : TileRow)
    (hi : (runTrace metaRows tileRows)[i]? = some (RunEvent.meta kv))
    (hj : (runTrace metaRows tileRows)[j]? = some (RunEvent.tile row)) : i < j := by
  unfold runTrace at hi hj
  have hmlen : (metaRows.map RunEvent.meta).length = metaRows.length := List.length_map _ _
  have hilt : i < metaRows.length := by
    by_contra hi2
    rw [List.getElem?_append_right (by rw [hmlen]; omega)] at hi
    rw [List.getElem?_map] at hi
    rcases h3 : tileRows[i - (metaRows.map RunEvent.meta).length]? with _ | r
    · rw [h3] at hi
      exact Option.noConfusion hi
    · rw [h3] at hi
      exact RunEvent.noConfusion (Option.some.inj hi)
  have hjge : metaRows.length ≤ j := by
    by_contra hj2
    rw [List.getElem?_append_left (by rw [hmlen]; omega)] at hj
    rw [List.getElem?_map] at hj
    rcases h3 : metaRows[j]? with _ | r
    · rw [h3] at hj
      exact Option.noConfusion hj
    · rw [h3] at hj
      exact RunEvent.noConfusion (Option.some.inj hj)
  omega

/-- C6, counterexample: a geodetic run (webviewer `all`, not resuming)
inserts no metadata rows at all — the INSERT loop lives only in the
mercator branch of `generate_metadata` — while the claim demands one row
for each of the eleven keys for every profile. -/
theorem metadata_rows_counterexample :
    worker_metadata_inserts Profile.geodetic "all" false false
        (generate_metadatajson "t" "c" "png" 0 5 "s" "w" "n" "e") = [] ∧
      (generate_metadatajson "t" "c" "png" 0 5 "s" "w" "n" "e").length = 11 := by
  constructor
  · rfl
  · rfl

/-- C6, amended: a run with profile `mercator`, webviewer `all` or
`metadata`, and `--resume` off inserts exactly the eleven documented
metadata rows (`name`, `description`, `version`, `attribution`,
`type=overlay`, `format`, `minzoom`, `maxzoom`, `bounds="s w n e"`,
`scale="1"`, `profile=mercator`), and in the run trace every metadata row
precedes every tile row. -/
theorem metadata_rows_mercator (webviewer : String) (mdJsonExists : Bool)
    (title copyright tileext : String) (tminz tmaxz : ℕ) (s w n e : String)
    (tileRows : List TileRow)
    (hw : webviewer = "all" ∨ webviewer = "metadata") :
    (worker_metadata_inserts Profile.mercator webviewer false mdJsonExists
        (generate_metadatajson title copyright tileext tminz tmaxz s w n e)).map Prod.fst =
      ["name", "description", "version", "attribution", "type", "format",
       "minzoom", "maxzoom", "bounds", "scale", "profile"] ∧
    ("type", "overlay") ∈ worker_metadata_inserts Profile.mercator webviewer false mdJsonExists
        (generate_metadatajson title copyright tileext tminz tmaxz s w n e) ∧
    ("scale", "1") ∈ worker_metadata_inserts Profile.mercator webviewer false mdJsonExists
        (generate_metadatajson title copyright tileext tminz tmaxz s w n e) ∧
    ("profile", "mercator") ∈ worker_metadata_inserts Profile.mercator webviewer false mdJsonExists
        (generate_metadatajson title copyright tileext tminz tmaxz s w n e) ∧
    ("bounds", s ++ " " ++ w ++ " " ++ n ++ " " ++ e) ∈
      worker_metadata_inserts Profile.mercator webviewer false mdJsonExists
        (generate_metadatajson title copyright tileext tminz tmaxz s w n e) ∧
    (∀ (i j : ℕ) (kv : String × String) (row : TileRow),
      (runTrace
          (worker_metadata_inserts Profile.mercator webviewer false mdJsonExists
            (generate_metadatajson title copyright tileext tminz tmaxz s w n e))
          tileRows)[i]? = some (RunEvent.meta kv) →
      (runTrace
          (worker_metadata_inserts Profile.mercator webviewer false mdJsonExists
            (generate_metadatajson title copyright tileext tminz tmaxz s w n e))
          tileRows)[j]? = some (RunEvent.tile row) → i < j) := by
  have hins : worker_metadata_inserts Profile.mercator webviewer false mdJsonExists
      (generate_metadatajson title copyright tileext tminz tmaxz s w n e) =
      generate_metadatajson title copyright tileext tminz tmaxz s w n e := by
    unfold worker_metadata_inserts generate_metadata_inserts
    rw [if_pos rfl, if_pos ⟨rfl, hw, Or.inl rfl⟩]
  rw [hins]
  refine ⟨rfl, ?_, ?_, ?_, ?_, ?_⟩
  · simp [generate_metadatajson]
  · simp [generate_metadatajson]
  · simp [generate_metadatajson]
  · simp [generate_metadatajson]
  · intro i j kv row hi hj
    exact runTrace_meta_before_tile _ tileRows i j kv row hi hj

/-- Witness for `metadata_rows_mercator` at concrete run options. -/
theorem metadata_rows_mercator_witness :
    (worker_metadata_inserts Profile.mercator "all" false false
        (generate_metadatajson "t" "c" "png" 0 5 "s" "w" "n" "e")).map Prod.fst =
      ["name", "description", "version", "attribution", "type", "format",
       "minzoom", "maxzoom", "bounds", "scale", "profile"] ∧
    ("type", "overlay") ∈ worker_metadata_inserts Profile.mercator "all" false false
        (generate_metadatajson "t" "c" "png" 0 5 "s" "w" "n" "e") ∧
    ("scale", "1") ∈ worker_metadata_inserts Profile.mercator "all" false false
        (generate_metadatajson "t" "c" "png" 0 5 "s" "w" "n" "e") ∧
    ("profile", "mercator") ∈ worker_metadata_inserts Profile.mercator "all" false false
        (generate_metadatajson "t" "c" "png" 0 5 "s" "w" "n" "e") ∧
    ("bounds", "s" ++ " " ++ "w" ++ " " ++ "n" ++ " " ++ "e") ∈
      worker_metadata_inserts Profile.mercator "all" false false
        (generate_metadatajson "t" "c" "png" 0 5 "s" "w" "n" "e") ∧
    (∀ (i j : ℕ) (kv : String × String) (row : TileRow),
      (runTrace
          (worker_metadata_inserts Profile.mercator "all" false false
            (generate_metadatajson "t" "c" "png" 0 5 "s" "w" "n" "e"))
          [])[i]? = some (RunEvent.meta kv) →
      (runTrace
          (worker_metadata_inserts Profile.mercator "all" false false
            (generate_metadatajson "t" "c" "png" 0 5 "s" "w" "n" "e"))
          [])[j]? = some (RunEvent.tile row) → i < j) :=
  metadata_rows_mercator "all" false "t" "c" "png" 0 5 "s" "w" "n" "e" [] (Or.inl rfl)

/-! ## C9: archive finalisation (create_index lines 2639-2642, main
lines 2774-2778) -/

/-- The statements executed by `create_index(cur)` (lines 2639-2642). -/
def create_index_stmts : List String :=
  ["create unique index name on metadata (name)",
   "create unique index tile_index on tiles (zoom_level, tile_column, tile_row)"]

/-- The statements executed by the tail of `main` after all tile workers
have joined (lines 2774-2778): `create_index` runs only when not
resuming, then `PRAGMA journal_mode=DELETE`. -/
def main_finalize (resume : Bool) : List String :=
  (if resume = false then create_index_stmts else []) ++ ["PRAGMA journal_mode=DELETE"]

/-- The `(zoom_level, tile_column, tile_row)` key of a tile row. -/
def tileKey (r : TileRow) : ℕ × ℤ × ℤ :=
  (r.zoom_level, r.tile_column, r.tile_row)

/-- SQLite semantics of `CREATE UNIQUE INDEX tile_index ON tiles(...)`:
the statement succeeds exactly when the key triples of the existing rows
are duplicate-free, and afterwards the triple is unique in the table. -/
def create_unique_tile_index (rows : List TileRow) : Option (List TileRow) :=
  if (rows.map tileKey).Nodup then some rows else none

/-- C9, counterexample: a run with `--resume` executes no
`create unique index` statement at all — `create_index` is guarded by
`if not ... resume` in `main` — so the claim fails for resume runs. -/
theorem create_index_counterexample :
    main_finalize true = ["PRAGMA journal_mode=DELETE"] ∧
      create_index_stmts.all (fun s => decide (s ∉ main_finalize true)) = true := by
  constructor
  · rfl
  · decide

/-- C9, amended: every non-resume run executes, after all tile work, the
two unique-index creations `metadata(name)` and
`tiles(zoom_level, tile_column, tile_row)` followed by
`PRAGMA journal_mode=DELETE`; when the unique tile index is created
successfully, the `(zoom_level, tile_column, tile_row)` triple is
duplicate-free in the `tiles` table. -/
theorem create_index_non_resume (resume : Bool) (h : resume = false) :
    main_finalize resume = create_index_stmts ++ ["PRAGMA journal_mode=DELETE"] ∧
      (∀ rows rows', create_unique_tile_index rows = some rows' →
        (rows'.map tileKey).Nodup) := by
  subst h
  refine ⟨rfl, ?_⟩
  intro rows rows' hr
  unfold create_unique_tile_index at hr
  by_cases hnd : (rows.map tileKey).Nodup
  · rw [if_pos hnd] at hr
    rw [← Option.some.inj hr]
    exact hnd
  · rw [if_neg hnd] at hr
    exact Option.noConfusion hr

/-- Witness for `create_index_non_resume` at `resume = false`. -/
theorem create_index_non_resume_witness :
    main_finalize false = create_index_stmts ++ ["PRAGMA journal_mode=DELETE"] ∧
      (∀ rows rows', create_unique_tile_index rows = some rows' →
        (rows'.map tileKey).Nodup) :=
  create_index_non_resume false rfl

/-! ## C8: overview-tile composition from children (lines 1483-1511) -/

/-- The tile store as read by the overview phase: the SELECT at
lines 1493-1494 keys on `(tz+1, x, y)` with the raw TMS row `y`. -/
def TileStore := ℕ → ℤ → ℤ → Option Blob

/-- The four child positions of parent `(tx, ty)` in the iteration order
of the two nested loops at lines 1483-1484 (`y` outer, `x` inner, both
ascending). -/
def childPositions (tx ty : ℤ) : List (ℤ × ℤ) :=
  [(2 * tx, 2 * ty), (2 * tx + 1, 2 * ty), (2 * tx, 2 * ty + 1), (2 * tx + 1, 2 * ty + 1)]

/-- The child-range test at line 1486:
`x >= minx and x <= maxx and y >= miny and y <= maxy` against
`self.tminmax[tz+1]`. -/
def childInRange (minx miny maxx maxy : ℤ) (p : ℤ × ℤ) : Bool :=
  decide (minx ≤ p.1 ∧ p.1 ≤ maxx ∧ miny ≤ p.2 ∧ p.2 ≤ maxy)

/-- The paint operation for one child: the decoded blob written into the
2× canvas at `(tileposx, tileposy)` (lines 1496-1511). -/
def childPaint (store : TileStore) (tz : ℕ) (tx ty : ℤ) (p : ℤ × ℤ) :
    Option (ℤ × ℤ × Blob) :=
  (store (tz + 1) p.1 p.2).map (fun b => (tileposx tx p.1, tileposy ty p.2, b))

/-- One iteration of the child loop (lines 1485-1511): a child inside the
child zoom's range is fetched from the store — `fetchone()` returning
`None` makes `blob_tile[0]` raise, modelled as `Except.error` — and
painted onto the canvas; a child outside the range is skipped, leaving
its quadrant in the canvas's initial (transparent) state. -/
def loadChildStep (store : TileStore) (tz : ℕ) (tx ty minx miny maxx maxy : ℤ)
    (acc : List (ℤ × ℤ × Blob)) (p : ℤ × ℤ) : Except Unit (List (ℤ × ℤ × Blob)) :=
  if childInRange minx miny maxx maxy p then
    match store (tz + 1) p.1 p.2 with
    | none => Except.error ()
    | some b => Except.ok (acc ++ [(tileposx tx p.1, tileposy ty p.2, b)])
  else Except.ok acc

/-- The canvas of paint operations performed by the child loop for parent
`(tx, ty)` at overview zoom `tz` (lines 1483-1511). -/
def build_overview_canvas (store : TileStore) (tz : ℕ) (tx ty minx miny maxx maxy : ℤ) :
    Except Unit (List (ℤ × ℤ × Blob)) :=
  (childPositions tx ty).foldlM (loadChildStep store tz tx ty minx miny maxx maxy) []

theorem foldlM_loadChildStep (store : TileStore) (tz : ℕ) (tx ty minx miny maxx maxy : ℤ)
    (l : List (ℤ × ℤ)) (acc : List (ℤ × ℤ × Blob)) :
    l.foldlM (loadChildStep store tz tx ty minx miny maxx maxy) acc =
      if l.all (fun p => !childInRange minx miny maxx maxy p ||
          (store (tz + 1) p.1 p.2).isSome) then
        Except.ok (acc ++ l.filterMap (fun p =>
          if childInRange minx miny maxx maxy p then childPaint store tz tx ty p else none))
      else Except.error () := by
  induction l generalizing acc with
  | nil => simp [List.foldlM_nil]; rfl
  | cons p l ih =>
    rw [List.foldlM_cons]
    by_cases hr : childInRange minx miny maxx maxy p
    · rcases hs : store (tz + 1) p.1 p.2 with _ | b
      · have hstep : loadChildStep store tz tx ty minx miny maxx maxy acc p =
            Except.error () := by
          unfold loadChildStep
          rw [if_pos hr, hs]
        rw [hstep]
        have hbind : (Except.error () >>= fun acc' =>
            l.foldlM (loadChildStep store tz tx ty minx miny maxx maxy) acc') =
            (Except.error () : Except Unit (List (ℤ × ℤ × Blob))) := rfl
        rw [hbind]
        rw [if_neg]
        simp [hr, hs]
      · have hstep : loadChildStep store tz tx ty minx miny maxx maxy acc p =
            Except.ok (acc ++ [(tileposx tx p.1, tileposy ty p.2, b)]) := by
          unfold loadChildStep
          rw [if_pos hr, hs]
        rw [hstep]
        have hbind : (Except.ok (acc ++ [(tileposx tx p.1, tileposy ty p.2, b)]) >>=
            fun acc' => l.foldlM (loadChildStep store tz tx ty minx miny maxx maxy) acc') =
            l.foldlM (loadChildStep store tz tx ty minx miny maxx maxy)
              (acc ++ [(tileposx tx p.1, tileposy ty p.2, b)]) := rfl
        rw [hbind, ih]
        by_cases hall : l.all (fun p => !childInRange minx miny maxx maxy p ||
            (store (tz + 1) p.1 p.2).isSome)
        · rw [if_pos hall, if_pos (by simp [hr, hs, hall])]
          simp [hr, hs, childPaint, List.filterMap_cons]
        · rw [if_neg hall, if_neg (by simp [hr, hs, hall])]
    · have hstep : loadChildStep store tz tx ty minx miny maxx maxy acc p =
          Except.ok acc := by
        unfold loadChildStep
        rw [if_neg hr]
      rw [hstep]
      have hbind : (Except.ok acc >>= fun acc' =>
          l.foldlM (loadChildStep store tz tx ty minx miny maxx maxy) acc') =
          l.foldlM (loadChildStep store tz tx ty minx miny maxx maxy) acc := rfl
      rw [hbind, ih]
      by_cases hall : l.all (fun p => !childInRange minx miny maxx maxy p ||
          (store (tz + 1) p.1 p.2).isSome)
      · rw [if_pos hall, if_pos (by simp [hr, hall])]
        simp [hr, List.filterMap_cons]
      · rw [if_neg hall, if_neg (by simp [hr, hall])]

theorem foldlM_loadChildStep_congr (store store' : TileStore) (tz : ℕ)
    (tx ty minx miny maxx maxy : ℤ) (l : List (ℤ × ℤ))
    (h : ∀ p ∈ l, store' (tz + 1) p.1 p.2 = store (tz + 1) p.1 p.2)
    (acc : List (ℤ × ℤ × Blob)) :
    l.foldlM (loadChildStep store' tz tx ty minx miny maxx maxy) acc =
      l.foldlM (loadChildStep store tz tx ty minx miny maxx maxy) acc := by
  revert h
  induction l generalizing acc with
  | nil =>
    intro h
    rfl
  | cons p l ih =>
    intro h
    rw [List.foldlM_cons, List.foldlM_cons]
    have hstep : loadChildStep store' tz tx ty minx miny maxx maxy acc p =
        loadChildStep store tz tx ty minx miny maxx maxy acc p := by
      unfold loadChildStep
      rw [h p (List.mem_cons_self p l)]
    rw [hstep]
    rcases hv : loadChildStep store tz tx ty minx miny maxx maxy acc p with e | acc'
    · rfl
    · exact ih acc' (fun q hq => h q (List.mem_cons_of_mem p hq))

/-- C8, counterexample: parent `(0, 0)` at overview zoom `0` with child
range `(0, 0, 1, 1)` and an archive holding no rows: the very first
child `(0, 0)` is inside the child range but has no row, and the tile
computation aborts with an error (`blob_tile[0]` on `None`) — the parent
tile is not produced with a transparent quadrant as the claim states. -/
theorem overview_missing_child_counterexample :
    build_overview_canvas (fun _ _ _ => none) 0 0 0 0 0 1 1 = Except.error () ∧
      childInRange 0 0 1 1 (2 * 0, 2 * 0) = true := by
  constructor
  · rfl
  · rfl

/-- C8, amended: the overview canvas is a deterministic function of the
store's rows at the four child positions of `(z+1)` only; children
outside the child zoom's tile range are skipped, leaving their quadrant
of the canvas transparent; if every in-range child has a row the canvas
paints exactly those children at their quadrant offsets, but if any
in-range child has no row the computation fails with an error and no
parent tile is produced. -/
theorem overview_composition_of_children (store : TileStore) (tz : ℕ)
    (tx ty minx miny maxx maxy : ℤ) :
    build_overview_canvas store tz tx ty minx miny maxx maxy =
      (if (childPositions tx ty).all (fun p => !childInRange minx miny maxx maxy p ||
          (store (tz + 1) p.1 p.2).isSome) then
        Except.ok ((childPositions tx ty).filterMap (fun p =>
          if childInRange minx miny maxx maxy p then childPaint store tz tx ty p else none))
      else Except.error ()) ∧
    (∀ store' : TileStore,
      (∀ p ∈ childPositions tx ty, store' (tz + 1) p.1 p.2 = store (tz + 1) p.1 p.2) →
      build_overview_canvas store' tz tx ty minx miny maxx maxy =
        build_overview_canvas store tz tx ty minx miny maxx maxy) := by
  constructor
  · unfold build_overview_canvas
    rw [foldlM_loadChildStep]
    simp
  · intro store' hag
    unfold build_overview_canvas
    exact foldlM_loadChildStep_congr store store' tz tx ty minx miny maxx maxy
      (childPositions tx ty) hag []

/-! ## C3: canonical tile enumeration and round-robin partitioning
(base phase lines 1283-1289, overview phase lines 1440-1448) -/

/-- The canonical tile iteration order of both phases:
`for ty in range(tmaxy, tminy - 1, -1): for tx in range(tminx, tmaxx + 1)`. -/
def tileEnum (tminx tminy tmaxx tmaxy : ℤ) : List (ℤ × ℤ) :=
  (List.range (tmaxy + 1 - tminy).toNat).flatMap (fun j =>
    (List.range (tmaxx + 1 - tminx).toNat).map
      (fun (k : ℕ) => (tminx + (k : ℤ), tmaxy - (j : ℤ))))

/-- The tiles a worker claims: the running counter `ti` is incremented for
every enumerated tile and the tile is processed iff
`(ti - 1) % processes == cpu`; the 0-based enumeration index is `ti - 1`. -/
def worker_tiles (tminx tminy tmaxx tmaxy : ℤ) (N cpu : ℕ) : List (ℤ × ℤ) :=
  (((tileEnum tminx tminy tmaxx tmaxy).enum).filter (fun p => p.1 % N == cpu)).map Prod.snd

theorem flatMap_range_length {α : Type} (g : ℕ → List α) (w : ℕ)
    (hg : ∀ j, (g j).length = w) (n : ℕ) :
    ((List.range n).flatMap g).length = n * w := by
  induction n with
  | zero => simp
  | succ n ih =>
    rw [List.range_succ, List.flatMap_append, List.length_append, ih]
    simp [hg]
    ring

theorem flatMap_range_getElem? {α : Type} (g : ℕ → List α) (w : ℕ)
    (hg : ∀ j, (g j).length = w) (n i : ℕ) (hi : i < n * w) :
    ((List.range n).flatMap g)[i]? = (g (i / w))[i % w]? := by
  have hw : 0 < w := by
    rcases Nat.eq_zero_or_pos w with rfl | hw
    · omega
    · exact hw
  induction n with
  | zero => omega
  | succ n ih =>
    rw [List.range_succ, List.flatMap_append]
    rcases Nat.lt_or_ge i (n * w) with hlt | hge
    · rw [List.getElem?_append_left (by rw [flatMap_range_length g w hg]; exact hlt)]
      exact ih hlt
    · rw [List.getElem?_append_right (by rw [flatMap_range_length g w hg]; exact hge)]
      rw [flatMap_range_length g w hg]
      have hsm : (n + 1) * w = n * w + w := by ring
      have hr : i - n * w < w := by omega
      have hcomm : w * n = n * w := Nat.mul_comm w n
      have hdecomp : i = (i - n * w) + w * n := by omega
      have hdiv : i / w = n := by
        rw [hdecomp, Nat.add_mul_div_left _ _ hw, Nat.div_eq_of_lt hr]
        omega
      have hmod : i % w = i - n * w := by
        rw [hdecomp, Nat.add_mul_mod_self_left, Nat.mod_eq_of_lt hr]
        omega
      rw [hdiv, hmod]
      simp

theorem tileEnum_length (tminx tminy tmaxx tmaxy : ℤ) :
    (tileEnum tminx tminy tmaxx tmaxy).length =
      (tmaxy + 1 - tminy).toNat * (tmaxx + 1 - tminx).toNat := by
  unfold tileEnum
  exact flatMap_range_length _ _ (fun j => by simp) _

theorem tileEnum_getElem? (tminx tminy tmaxx tmaxy : ℤ) (i : ℕ)
    (hi : i < (tmaxy + 1 - tminy).toNat * (tmaxx + 1 - tminx).toNat) :
    (tileEnum tminx tminy tmaxx tmaxy)[i]? =
      some (tminx + ((i % (tmaxx + 1 - tminx).toNat : ℕ) : ℤ),
        tmaxy - ((i / (tmaxx + 1 - tminx).toNat : ℕ) : ℤ)) := by
  have hw : 0 < (tmaxx + 1 - tminx).toNat := by
    rcases Nat.eq_zero_or_pos (tmaxx + 1 - tminx).toNat with h0 | h
    · rw [h0, Nat.mul_zero] at hi
      omega
    · exact h
  unfold tileEnum
  rw [flatMap_range_getElem? _ _ (fun j => by simp) _ _ hi]
  rw [List.getElem?_map, List.getElem?_range (Nat.mod_lt _ hw)]
  rfl

theorem worker_tiles_mem (tminx tminy tmaxx tmaxy : ℤ) (N cpu : ℕ) (v : ℤ × ℤ) :
    v ∈ worker_tiles tminx tminy tmaxx tmaxy N cpu ↔
      ∃ i : ℕ, (tileEnum tminx tminy tmaxx tmaxy)[i]? = some v ∧ i % N = cpu := by
  unfold worker_tiles
  constructor
  · intro hv
    rcases List.mem_map.mp hv with ⟨⟨i, x⟩, hmem, hsnd⟩
    rcases List.mem_filter.mp hmem with ⟨henum, hpred⟩
    refine ⟨i, ?_, ?_⟩
    · have hx : x = v := hsnd
      rw [← hx]
      exact List.mk_mem_enum_iff_getElem?.mp henum
    · simpa using hpred
  · rintro ⟨i, hget, hmod⟩
    apply List.mem_map.mpr
    refine ⟨(i, v), ?_, rfl⟩
    apply List.mem_filter.mpr
    refine ⟨List.mk_mem_enum_iff_getElem?.mpr ?_, by simpa using hmod⟩
    exact hget

/-- C3, confirmed: for every tile `(tx, ty)` of the range and every worker
count `N ≥ 1`, exactly one worker id in `[0, N)` selects the tile under
the canonical enumeration with the round-robin filter
`(ti - 1) % N == cpu` — the workers' tile lists are pairwise disjoint and
together cover the range. -/
theorem worker_round_robin_partition (tminx tminy tmaxx tmaxy : ℤ) (N : ℕ) (hN : 0 < N)
    (tx ty : ℤ) (hx1 : tminx ≤ tx) (hx2 : tx ≤ tmaxx) (hy1 : tminy ≤ ty) (hy2 : ty ≤ tmaxy) :
    ∃! cpu : ℕ, cpu < N ∧ (tx, ty) ∈ worker_tiles tminx tminy tmaxx tmaxy N cpu := by
  have hw : 0 < (tmaxx + 1 - tminx).toNat := by omega
  have hh : 0 < (tmaxy + 1 - tminy).toNat := by omega
  have hj0 : (tmaxy - ty).toNat < (tmaxy + 1 - tminy).toNat := by omega
  have hk0 : (tx - tminx).toNat < (tmaxx + 1 - tminx).toNat := by omega
  have hi0 : (tmaxy - ty).toNat * (tmaxx + 1 - tminx).toNat + (tx - tminx).toNat <
      (tmaxy + 1 - tminy).toNat * (tmaxx + 1 - tminx).toNat := by
    calc (tmaxy - ty).toNat * (tmaxx + 1 - tminx).toNat + (tx - tminx).toNat
        < (tmaxy - ty).toNat * (tmaxx + 1 - tminx).toNat + (tmaxx + 1 - tminx).toNat := by omega
      _ = ((tmaxy - ty).toNat + 1) * (tmaxx + 1 - tminx).toNat := by ring
      _ ≤ (tmaxy + 1 - tminy).toNat * (tmaxx + 1 - tminx).toNat :=
          Nat.mul_le_mul_right _ (by omega)
  have hswap : (tmaxy - ty).toNat * (tmaxx + 1 - tminx).toNat + (tx - tminx).toNat =
      (tx - tminx).toNat + (tmaxx + 1 - tminx).toNat * (tmaxy - ty).toNat := by
    have := Nat.mul_comm (tmaxy - ty).toNat (tmaxx + 1 - tminx).toNat
    omega
  have hi0div : ((tmaxy - ty).toNat * (tmaxx + 1 - tminx).toNat + (tx - tminx).toNat) /
      (tmaxx + 1 - tminx).toNat = (tmaxy - ty).toNat := by
    rw [hswap, Nat.add_mul_div_left _ _ hw, Nat.div_eq_of_lt hk0]
    omega
  have hi0mod : ((tmaxy - ty).toNat * (tmaxx + 1 - tminx).toNat + (tx - tminx).toNat) %
      (tmaxx + 1 - tminx).toNat = (tx - tminx).toNat := by
    rw [hswap, Nat.add_mul_mod_self_left, Nat.mod_eq_of_lt hk0]
  have hget : (tileEnum tminx tminy tmaxx tmaxy)[(tmaxy - ty).toNat *
      (tmaxx + 1 - tminx).toNat + (tx - tminx).toNat]? = some (tx, ty) := by
    rw [tileEnum_getElem? _ _ _ _ _ hi0, hi0div, hi0mod]
    have h1 : tminx + ((tx - tminx).toNat : ℤ) = tx := by omega
    have h2 : tmaxy - ((tmaxy - ty).toNat : ℤ) = ty := by omega
    rw [h1, h2]
  refine ⟨((tmaxy - ty).toNat * (tmaxx + 1 - tminx).toNat + (tx - tminx).toNat) % N,
    ⟨Nat.mod_lt _ hN, (worker_tiles_mem _ _ _ _ _ _ _).mpr ⟨_, hget, rfl⟩⟩, ?_⟩
  rintro cpu' ⟨hlt', hmem'⟩
  rcases (worker_tiles_mem _ _ _ _ _ _ _).mp hmem' with ⟨i, hget', hmod'⟩
  have hlen : i < (tmaxy + 1 - tminy).toNat * (tmaxx + 1 - tminx).toNat := by
    rcases List.getElem?_eq_some_iff.mp hget' with ⟨hlt, _⟩
    rw [tileEnum_length] at hlt
    exact hlt
  have hchar := tileEnum_getElem? tminx tminy tmaxx tmaxy i hlen
  rw [hget'] at hchar
  have hpair := Option.some.inj hchar
  have hfst : tx = tminx + ((i % (tmaxx + 1 - tminx).toNat : ℕ) : ℤ) :=
    congrArg Prod.fst hpair
  have hsnd : ty = tmaxy - ((i / (tmaxx + 1 - tminx).toNat : ℕ) : ℤ) :=
    congrArg Prod.snd hpair
  have hdm := Nat.div_add_mod i (tmaxx + 1 - tminx).toNat
  have hieq : i = (tmaxy - ty).toNat * (tmaxx + 1 - tminx).toNat + (tx - tminx).toNat := by
    have hmw : i % (tmaxx + 1 - tminx).toNat = (tx - tminx).toNat := by omega
    have hdw : i / (tmaxx + 1 - tminx).toNat = (tmaxy - ty).toNat := by omega
    rw [hdw, hmw] at hdm
    have hcm : (tmaxx + 1 - tminx).toNat * (tmaxy - ty).toNat =
        (tmaxy - ty).toNat * (tmaxx + 1 - tminx).toNat := Nat.mul_comm _ _
    omega
  rw [hieq] at hmod'
  exact hmod'.symm

/-- Witness for `worker_round_robin_partition`: the range `(0,0)-(1,1)`
with `N = 2` workers and the tile `(1, 0)`. -/
theorem worker_round_robin_partition_witness :
    ∃! cpu : ℕ, cpu < 2 ∧ ((1 : ℤ), (0 : ℤ)) ∈ worker_tiles 0 0 1 1 2 cpu :=
  worker_round_robin_partition 0 0 1 1 2 (by decide) 1 0 (by decide) (by decide)
    (by decide) (by decide)

/-! ## C2: the query-to-tile mapper `geo_query` (lines 1541-1581) -/

/-- The windows returned by `geo_query`: the raster read window
`(rx, ry, rxsize, rysize)` and the write window `(wx, wy, wxsize, wysize)`. -/
structure GQWindows where
  rx : ℤ
  ry : ℤ
  rxsize : ℤ
  rysize : ℤ
  wx : ℤ
  wy : ℤ
  wxsize : ℤ
  wysize : ℤ
  deriving DecidableEq

/-- The second clamp of one axis of `geo_query` (lines 1566-1568 /
1577-1579): if the read window overruns `limit`, scale the write size by
the in-bounds fraction and truncate the read size; `none` models
Python's `ZeroDivisionError` when the branch divides by a zero `rsize`.
The tuple is `(r, rsize, w, wsize)`. -/
def clampMax (limit : ℤ) (rw : ℤ × ℤ × ℤ × ℤ) : Option (ℤ × ℤ × ℤ × ℤ) :=
  if limit < rw.1 + rw.2.1 then
    if rw.2.1 = 0 then none
    else some (rw.1, limit - rw.1, rw.2.2.1,
      pyTrunc ((rw.2.2.2 : ℚ) * (((limit - rw.1 : ℤ) : ℚ) / (rw.2.1 : ℚ))))
  else some rw

/-- One full axis of the clamping in `geo_query` (lines 1559-1579): first
clamp at `0` (lines 1560-1565, shifting the write window by the
proportional amount), then clamp at `limit`. -/
def clampAxis (r0 rsize0 wsize0 limit : ℤ) : Option (ℤ × ℤ × ℤ × ℤ) :=
  if r0 < 0 then
    if rsize0 = 0 then none
    else
      clampMax limit (0,
        rsize0 - pyTrunc ((rsize0 : ℚ) * (((|r0|) : ℚ) / (rsize0 : ℚ))),
        pyTrunc ((wsize0 : ℚ) * (((|r0|) : ℚ) / (rsize0 : ℚ))),
        wsize0 - pyTrunc ((wsize0 : ℚ) * (((|r0|) : ℚ) / (rsize0 : ℚ))))
  else clampMax limit (r0, rsize0, 0, wsize0)

/-- Function `geo_query(ds, ulx, uly, lrx, lry, querysize)` (lines 1541-1581).
`gt0 … gt5` is `ds.GetGeoTransform()` (the rotation terms `gt2`, `gt4`
are never read), `rasterX`/`rasterY` are `ds.RasterXSize`/`RasterYSize`.
`none` models a `ZeroDivisionError`. -/
def geo_query (gt0 gt1 _gt2 gt3 _gt4 gt5 : ℚ) (rasterX rasterY : ℤ)
    (ulx uly lrx lry : ℚ) (querysize : ℤ) : Option GQWindows :=
  if gt1 = 0 ∨ gt5 = 0 then none
  else
    let rx := pyTrunc ((ulx - gt0) / gt1 + 1 / 1000)
    let ry := pyTrunc ((uly - gt3) / gt5 + 1 / 1000)
    let rxsize := pyTrunc ((lrx - ulx) / gt1 + 1 / 2)
    let rysize := pyTrunc ((lry - uly) / gt5 + 1 / 2)
    let wxsize := if querysize = 0 then rxsize else querysize
    let wysize := if querysize = 0 then rysize else querysize
    match clampAxis rx rxsize wxsize rasterX, clampAxis ry rysize wysize rasterY with
    | some (rx', rxsize', wx, wxsize'), some (ry', rysize', wy, wysize') =>
        some { rx := rx', ry := ry', rxsize := rxsize', rysize := rysize',
               wx := wx, wy := wy, wxsize := wxsize', wysize := wysize' }
    | _, _ => none

theorem clampMax_bounds (L r rsize w wsize : ℤ) (_hr : 0 ≤ r) (hrL : r ≤ L)
    (hrs : 0 ≤ rsize) (hws : 0 ≤ wsize) :
    ∃ rs' ws', clampMax L (r, rsize, w, wsize) = some (r, rs', w, ws') ∧
      r + rs' ≤ L ∧ 0 ≤ rs' ∧ 0 ≤ ws' ∧ ws' ≤ wsize := by
  by_cases h2 : L < r + rsize
  · have hpos : 0 < rsize := by omega
    have hne : rsize ≠ 0 := by omega
    have ht0 : (0 : ℚ) ≤ ((L - r : ℤ) : ℚ) / (rsize : ℚ) := by
      apply div_nonneg
      · exact_mod_cast (by omega : (0 : ℤ) ≤ L - r)
      · exact_mod_cast le_of_lt hpos
    have ht1 : ((L - r : ℤ) : ℚ) / (rsize : ℚ) ≤ 1 := by
      rw [div_le_one (by exact_mod_cast hpos)]
      exact_mod_cast (by omega : L - r ≤ rsize)
    have hin0 : (0 : ℚ) ≤ (wsize : ℚ) * (((L - r : ℤ) : ℚ) / (rsize : ℚ)) :=
      mul_nonneg (by exact_mod_cast hws) ht0
    have hinw : (wsize : ℚ) * (((L - r : ℤ) : ℚ) / (rsize : ℚ)) ≤ (wsize : ℚ) :=
      mul_le_of_le_one_right (by exact_mod_cast hws) ht1
    refine ⟨L - r, pyTrunc ((wsize : ℚ) * (((L - r : ℤ) : ℚ) / (rsize : ℚ))), ?_, ?_, ?_, ?_, ?_⟩
    · unfold clampMax
      rw [if_pos h2, if_neg hne]
    · omega
    · omega
    · exact pyTrunc_nonneg hin0
    · have := pyTrunc_le hin0
      have hle : ((pyTrunc ((wsize : ℚ) * (((L - r : ℤ) : ℚ) / (rsize : ℚ)))) : ℚ) ≤
          (wsize : ℚ) := le_trans this hinw
      exact_mod_cast hle
  · refine ⟨rsize, wsize, ?_, by omega, hrs, hws, le_refl _⟩
    unfold clampMax
    rw [if_neg h2]

theorem clampAxis_bounds (L Q : ℤ) (a b : ℚ) (hL : 0 < L) (hQ : 0 < Q)
    (hb : 0 < b) (haL : a < (L : ℚ)) (hab : 0 < a + b) :
    ∃ r rsize w wsize : ℤ,
      clampAxis (pyTrunc (a + 1 / 1000)) (pyTrunc (b + 1 / 2)) Q L =
        some (r, rsize, w, wsize) ∧
      0 ≤ r ∧ r + rsize ≤ L ∧ 0 ≤ w ∧ w + wsize ≤ Q ∧ 0 ≤ rsize ∧ 0 ≤ wsize := by
  set r0 : ℤ := pyTrunc (a + 1 / 1000) with hr0_def
  set rs0 : ℤ := pyTrunc (b + 1 / 2) with hrs0_def
  have hrs0_nonneg : 0 ≤ rs0 := pyTrunc_nonneg (by linarith)
  have hrs0_gt : (b : ℚ) - 1 / 2 < (rs0 : ℚ) := by
    have := sub_one_lt_pyTrunc (b + 1 / 2)
    rw [← hrs0_def] at this
    linarith
  have hr0L : r0 ≤ L := by
    by_cases hneg : a + 1 / 1000 < 0
    · have h1 : r0 = ⌈a + 1 / 1000⌉ := by rw [hr0_def, pyTrunc, if_pos hneg]
      have h2 : ⌈a + 1 / 1000⌉ ≤ 0 := by
        rw [Int.ceil_le]
        push_cast
        linarith
      omega
    · push_neg at hneg
      have h2 : (r0 : ℚ) ≤ a + 1 / 1000 := by
        rw [hr0_def]
        exact pyTrunc_le hneg
      have h3 : (r0 : ℚ) < (L : ℚ) + 1 := by linarith
      have h4 : r0 < L + 1 := by exact_mod_cast h3
      omega
  by_cases hc : r0 < 0
  · -- left clamp taken (lines 1560-1565)
    have ha1 : a + 1 / 1000 ≤ -1 := by
      rw [hr0_def] at hc
      exact le_neg_one_of_pyTrunc_neg hc
    have hbig : (1 : ℚ) < b := by linarith
    have hrs0_pos : 0 < rs0 := by
      have h1 : (0 : ℚ) < (rs0 : ℚ) := by linarith
      exact_mod_cast h1
    have hne0 : rs0 ≠ 0 := by omega
    have hr0q_neg : ((r0 : ℤ) : ℚ) < 0 := by exact_mod_cast hc
    have habsq : |((r0 : ℤ) : ℚ)| = -((r0 : ℤ) : ℚ) := abs_of_neg hr0q_neg
    have hr0q : a + 1 / 1000 ≤ (r0 : ℚ) := by
      rw [hr0_def]
      exact le_pyTrunc_of_neg (by linarith)
    have hsum : 0 ≤ r0 + rs0 := by
      have h2 : ((-1 : ℤ) : ℚ) < ((r0 + rs0 : ℤ) : ℚ) := by
        push_cast
        linarith
      have h3 : (-1 : ℤ) < r0 + rs0 := by exact_mod_cast h2
      omega
    have hshift_le : -r0 ≤ rs0 := by omega
    have hrs0q_pos : (0 : ℚ) < (rs0 : ℚ) := by exact_mod_cast hrs0_pos
    have ht0 : (0 : ℚ) ≤ |((r0 : ℤ) : ℚ)| / (rs0 : ℚ) :=
      div_nonneg (abs_nonneg _) (le_of_lt hrs0q_pos)
    have ht1 : |((r0 : ℤ) : ℚ)| / (rs0 : ℚ) ≤ 1 := by
      rw [div_le_one hrs0q_pos, habsq]
      exact_mod_cast hshift_le
    have hwin0 : (0 : ℚ) ≤ (Q : ℚ) * (|((r0 : ℤ) : ℚ)| / (rs0 : ℚ)) :=
      mul_nonneg (by exact_mod_cast le_of_lt hQ) ht0
    have hw0 : 0 ≤ pyTrunc ((Q : ℚ) * (|((r0 : ℤ) : ℚ)| / (rs0 : ℚ))) :=
      pyTrunc_nonneg hwin0
    have hwQ : pyTrunc ((Q : ℚ) * (|((r0 : ℤ) : ℚ)| / (rs0 : ℚ))) ≤ Q := by
      have h1 : (Q : ℚ) * (|((r0 : ℤ) : ℚ)| / (rs0 : ℚ)) ≤ (Q : ℚ) :=
        mul_le_of_le_one_right (by exact_mod_cast le_of_lt hQ) ht1
      have h2 := le_trans (pyTrunc_le hwin0) h1
      exact_mod_cast h2
    have hexact : pyTrunc ((rs0 : ℚ) * (|((r0 : ℤ) : ℚ)| / (rs0 : ℚ))) = -r0 := by
      have hne : (rs0 : ℚ) ≠ 0 := by exact_mod_cast hne0
      have h1 : (rs0 : ℚ) * (|((r0 : ℤ) : ℚ)| / (rs0 : ℚ)) = |((r0 : ℤ) : ℚ)| := by
        rw [mul_comm, div_mul_cancel₀ _ hne]
      rw [h1, habsq]
      have h2 : (-((r0 : ℤ) : ℚ)) = (((-r0 : ℤ)) : ℚ) := by push_cast; ring
      rw [h2, pyTrunc_intCast]
    have hrsize1 : rs0 - pyTrunc ((rs0 : ℚ) * (|((r0 : ℤ) : ℚ)| / (rs0 : ℚ))) = rs0 + r0 := by
      rw [hexact]
      ring
    rcases clampMax_bounds L 0
        (rs0 - pyTrunc ((rs0 : ℚ) * (|((r0 : ℤ) : ℚ)| / (rs0 : ℚ))))
        (pyTrunc ((Q : ℚ) * (|((r0 : ℤ) : ℚ)| / (rs0 : ℚ))))
        (Q - pyTrunc ((Q : ℚ) * (|((r0 : ℤ) : ℚ)| / (rs0 : ℚ))))
        (le_refl 0) (le_of_lt hL) (by omega) (by omega) with
      ⟨rs2, ws2, heq, hc1, hc2, hc3, hc4⟩
    refine ⟨0, rs2, pyTrunc ((Q : ℚ) * (|((r0 : ℤ) : ℚ)| / (rs0 : ℚ))), ws2, ?_,
      le_refl 0, hc1, hw0, by omega, hc2, hc3⟩
    unfold clampAxis
    rw [if_pos hc, if_neg hne0]
    exact heq
  · -- left clamp not taken
    push_neg at hc
    rcases clampMax_bounds L r0 rs0 0 Q hc hr0L hrs0_nonneg (le_of_lt hQ) with
      ⟨rs2, ws2, heq, hc1, hc2, hc3, hc4⟩
    refine ⟨r0, rs2, 0, ws2, ?_, hc, hc1, le_refl 0, by omega, hc2, hc3⟩
    unfold clampAxis
    rw [if_neg (not_lt.mpr hc)]
    exact heq

/-- C2, confirmed: for a north-up geotransform (`gt1 > 0`, `gt5 < 0`,
rotation terms unread), a query rectangle `(ulx, uly, lrx, lry)` that
intersects the raster `[gt0, gt0 + W*gt1] × [gt3 + H*gt5, gt3]` with
positive extent, and a query size `Q > 0`, `geo_query` returns windows
with `0 ≤ rx`, `rx + rxsize ≤ W`, `0 ≤ ry`, `ry + rysize ≤ H`,
`0 ≤ wx`, `wx + wxsize ≤ Q`, `0 ≤ wy`, `wy + wysize ≤ Q`. -/
theorem geo_query_window_bounds
    (gt0 gt1 gt2 gt3 gt4 gt5 : ℚ) (W H Q : ℤ) (ulx uly lrx lry : ℚ)
    (hpx : 0 < gt1) (hpy : gt5 < 0) (hW : 0 < W) (hH : 0 < H) (hQ : 0 < Q)
    (hxlr : ulx < lrx) (hylr : lry < uly)
    (hxi1 : gt0 < lrx) (hxi2 : ulx < gt0 + (W : ℚ) * gt1)
    (hyi1 : lry < gt3) (hyi2 : gt3 + (H : ℚ) * gt5 < uly) :
    ∃ win : GQWindows,
      geo_query gt0 gt1 gt2 gt3 gt4 gt5 W H ulx uly lrx lry Q = some win ∧
      0 ≤ win.rx ∧ win.rx + win.rxsize ≤ W ∧
      0 ≤ win.ry ∧ win.ry + win.rysize ≤ H ∧
      0 ≤ win.wx ∧ win.wx + win.wxsize ≤ Q ∧
      0 ≤ win.wy ∧ win.wy + win.wysize ≤ Q := by
  have hgt1ne : gt1 ≠ 0 := ne_of_gt hpx
  have hgt5ne : gt5 ≠ 0 := ne_of_lt hpy
  have hbx : 0 < (lrx - ulx) / gt1 := div_pos (by linarith) hpx
  have haxL : (ulx - gt0) / gt1 < (W : ℚ) := by
    rw [div_lt_iff₀ hpx]
    linarith
  have habx : 0 < (ulx - gt0) / gt1 + (lrx - ulx) / gt1 := by
    rw [div_add_div_same]
    exact div_pos (by linarith) hpx
  have hby : 0 < (lry - uly) / gt5 := div_pos_of_neg_of_neg (by linarith) hpy
  have hayH : (uly - gt3) / gt5 < (H : ℚ) := by
    rw [div_lt_iff_of_neg hpy]
    linarith
  have haby : 0 < (uly - gt3) / gt5 + (lry - uly) / gt5 := by
    rw [div_add_div_same]
    exact div_pos_of_neg_of_neg (by linarith) hpy
  rcases clampAxis_bounds W Q ((ulx - gt0) / gt1) ((lrx - ulx) / gt1) hW hQ hbx haxL habx
    with ⟨rx2, rxs, wx2, wxs, hxeq, hx1, hx2, hx3, hx4, hx5, hx6⟩
  rcases clampAxis_bounds H Q ((uly - gt3) / gt5) ((lry - uly) / gt5) hH hQ hby hayH haby
    with ⟨ry2, rys, wy2, wys, hyeq, hy1, hy2, hy3, hy4, hy5, hy6⟩
  refine ⟨{ rx := rx2, ry := ry2, rxsize := rxs, rysize := rys,
            wx := wx2, wy := wy2, wxsize := wxs, wysize := wys }, ?_,
    hx1, hx2, hy1, hy2, hx3, hx4, hy3, hy4⟩
  have hQne : ¬ (Q = 0) := by omega
  simp only [geo_query]
  rw [if_neg (by push_neg; exact ⟨hgt1ne, hgt5ne⟩), if_neg hQne, if_neg hQne, hxeq, hyeq]

/-- Witness for `geo_query_window_bounds`: the identity-like geotransform
`(0, 1, 0, 0, 0, -1)`, a 10×10 raster, query size 4 and a rectangle
overlapping the raster's left edge. -/
theorem geo_query_window_bounds_witness :
    ∃ win : GQWindows,
      geo_query 0 1 0 0 0 (-1) 10 10 (-2) (-1) 5 (-6) 4 = some win ∧
      0 ≤ win.rx ∧ win.rx + win.rxsize ≤ 10 ∧
      0 ≤ win.ry ∧ win.ry + win.rysize ≤ 10 ∧
      0 ≤ win.wx ∧ win.wx + win.wxsize ≤ 4 ∧
      0 ≤ win.wy ∧ win.wy + win.wysize ≤ 4 :=
  geo_query_window_bounds 0 1 0 0 0 (-1) 10 10 4 (-2) (-1) 5 (-6)
    (by norm_num) (by norm_num) (by norm_num) (by norm_num) (by norm_num)
    (by norm_num) (by norm_num) (by norm_num) (by norm_num) (by norm_num) (by norm_num)

end Gdal2Mbtiles
